import Mathlib

/-!
Verification of dnssvc-certman-webhook: zone resolution, record matching and the
challenge orchestrator.

Shallow embedding of `dnssvc/dnssvc.go` and of the orchestration functions of
`main.go`.

Modelling conventions.

* A Go `string` is a `List Char`.  Every string that reaches the embedded
  functions was decoded from JSON, hence is valid UTF-8, and on valid UTF-8 the
  byte-level operations used by the code (`HasSuffix`, `TrimSuffix`, slicing
  off the final byte `.`, `Contains`, `==`) coincide with the same operations
  on code points.
* A pointer that may be `nil` is an `Option`.
* A Go map is the list of its entries in the order in which `range` visits
  them.  Go leaves that order unspecified, so statements quantify over all
  lists.
* What lies outside the repository is an explicit parameter (`Provider`):
  whether Go's URL parser accepts a URL, and what each HTTP exchange is
  answered with after transport and JSON decoding.  Every client method
  reports the exchanges it started, and a run-time panic is an outcome of its
  own.
-/

namespace DnsSvc

/-- Go `string`. -/
abbrev Str := List Char

/-! ## Package `strings` -/

/-- Go `strings.HasSuffix`:
`len(s) >= len(suffix) && s[len(s)-len(suffix):] == suffix`. -/
def HasSuffix (s suffix : Str) : Bool :=
  decide (suffix.length ≤ s.length) && (s.drop (s.length - suffix.length) == suffix)

/-- Go `strings.TrimSuffix`:
`if HasSuffix(s, suffix) { return s[:len(s)-len(suffix)] }; return s`. -/
def TrimSuffix (s suffix : Str) : Str :=
  if HasSuffix s suffix then s.take (s.length - suffix.length) else s

/-- Go `strings.HasPrefix`:
`len(s) >= len(prefix) && s[:len(prefix)] == prefix`. -/
def HasPrefix (s pre : Str) : Bool :=
  decide (pre.length ≤ s.length) && (s.take pre.length == pre)

/-- Go `strings.Contains`: reports whether `substr` is within `s`, that is
whether `substr` starts at some offset of `s` (a left-to-right scan). -/
def Contains : Str → Str → Bool
  | [], substr => HasPrefix [] substr
  | c :: cs, substr => HasPrefix (c :: cs) substr || Contains cs substr

/-- The statement `if strings.HasSuffix(name, ".") { name = name[:len(name)-1] }`
that both lookup functions apply to a name. -/
def stripDot (name : Str) : Str :=
  if HasSuffix name ['.'] then name.take (name.length - 1) else name

/-! ## Data model of `dnssvc.go` -/

/-- Go `interface{}` values as `encoding/json` produces them.  Arrays and
objects are never inspected by the code and carry their JSON text. -/
inductive Any where
  | null
  | bool (b : Bool)
  | number (text : Str)
  | string (s : Str)
  | array (text : Str)
  | object (text : Str)
  deriving DecidableEq

/-- Go `map[string]interface{}`: the entries of the map, read with `List.lookup`. -/
abbrev JsonMap := List (Str × Any)

structure DnsSvcClient where
  token : Str
  deriving DecidableEq

structure ZoneRec where
  DomainId : Str
  Name : Str
  ServiceId : Str
  deriving DecidableEq

structure Services where
  ServiceIds : List Str
  Zones : List ZoneRec
  deriving DecidableEq

structure DNSRecord where
  Id : Str
  DomainId : Str
  Name : Str
  /-- Go field `Type` (a reserved word here). -/
  Type_ : Str
  Ttl : Str
  Prio : Str
  Content : Any
  deriving DecidableEq

structure DNSHeader where
  ServiceId : Str
  Name : Str
  Records : List (Str × DNSRecord)
  deriving DecidableEq

/-! ## Record matching and zone resolution -/

/-- The `for _, rec := range details.Records` loop of `FindRecordByName`. -/
def FindRecordByName.loop (typ name : Str) : List (Str × DNSRecord) → Option DNSRecord
  | [] => none
  | (_, rec) :: rest =>
    let n := rec.Name
    let n := if HasSuffix n ['.'] then n.take (n.length - 1) else n
    if rec.Type_ = typ ∧ n = name then some rec else FindRecordByName.loop typ name rest

/-- Go `(*DNSHeader).FindRecordByName`. -/
def FindRecordByName (details : Option DNSHeader) (typ name : Str) : Option DNSRecord :=
  match details with
  | none => none
  | some details =>
    let name := if HasSuffix name ['.'] then name.take (name.length - 1) else name
    FindRecordByName.loop typ name details.Records

/-- The `for _, zone := range svc.Zones` loop of `GetZoneByName`. -/
def GetZoneByName.loop (name : Str) : List ZoneRec → Option ZoneRec
  | [] => none
  | zone :: rest =>
    if zone.Name = name ∨ Contains name zone.Name = true then some zone
    else GetZoneByName.loop name rest

/-- Go `(*Services).GetZoneByName`. -/
def GetZoneByName (svc : Option Services) (name : Str) : Option ZoneRec :=
  match svc with
  | none => none
  | some svc =>
    let name := if HasSuffix name ['.'] then name.take (name.length - 1) else name
    GetZoneByName.loop name svc.Zones

/-! ## The provider API and the client methods -/

/-- Go `error` values that the embedded code returns. -/
inductive Error where
  /-- An error of `net/http`, `ioutil.ReadAll` or `encoding/json`. -/
  | transport (msg : Str)
  /-- Go `fmt.Errorf("Login API returned error: %s", errMsg)`. -/
  | loginApi (errMsg : Any)
  /-- Go `fmt.Errorf("POST Record API was unsuccesful")`. -/
  | postUnsuccessful
  /-- Go `fmt.Errorf("Delete Record API was unsuccesful")`. -/
  | deleteUnsuccessful
  deriving DecidableEq

/-- The HTTP requests the client issues. -/
inductive Request where
  /-- Request `POST /api/login`. -/
  | login (username password : Str)
  /-- Request `GET /api/dns`. -/
  | loadDNS (token : Str)
  /-- Request `GET /api/service/{serviceId}/dns/{domainId}`. -/
  | getDetails (token serviceId domainId : Str)
  /-- Request `POST /api/service/{serviceId}/dns/{domainId}/records`. -/
  | addRecord (token serviceId domainId : Str) (rec : DNSRecord)
  /-- Request `DELETE /api/service/{serviceId}/dns/{domainId}/records/{recordId}`. -/
  | removeRecord (token serviceId domainId recordId : Str)
  deriving DecidableEq

/-- What the client code calls outside the repository.

`urlParses` is Go's URL parser: whether `http.NewRequest` accepts the URL and
returns a request rather than `nil` and an error.  The other fields are the
remote API: for each request, the error of the exchange (transport, body read
or JSON decoding) or the decoded response. -/
structure Provider where
  urlParses : Str → Bool
  login : Str → Str → Except Error JsonMap
  loadDNS : Str → Except Error Services
  getDetails : Str → Str → Str → Except Error DNSHeader
  addRecord : Str → Str → Str → DNSRecord → Except Error JsonMap
  removeRecord : Str → Str → Str → Str → Except Error JsonMap

/-- How a call ends: it returns, or it panics. -/
inductive Outcome (α : Type) where
  | ret (a : α)
  | panic
  deriving DecidableEq

/-- A finished call: how it ended and the HTTP exchanges it started
(`http.Post`, `client.Do`), in order. -/
structure Exec (α : Type) where
  outcome : Outcome α
  calls : List Request
  deriving DecidableEq

/-- A call that returns `a` without issuing a request. -/
def Exec.done {α : Type} (a : α) : Exec α := ⟨.ret a, []⟩

/-- Sequencing: the rest of the function body runs only when the call returned. -/
def Exec.andThen {α β : Type} (x : Exec α) (f : α → Exec β) : Exec β :=
  match x.outcome with
  | .panic => ⟨.panic, x.calls⟩
  | .ret a => ⟨(f a).outcome, x.calls ++ (f a).calls⟩

/-- Go `fmt.Sprintf("https://dns.services/api/service/%s/dns/%s", serviceId, domainId)`,
the URL of `GetDetails`. -/
def detailsURL (serviceId domainId : Str) : Str :=
  "https://dns.services/api/service/".toList ++ serviceId ++ "/dns/".toList ++ domainId

/-- Go `fmt.Sprintf("https://dns.services/api/service/%s/dns/%s/records", serviceId, domainId)`,
the URL of `AddRecord`. -/
def recordsURL (serviceId domainId : Str) : Str :=
  "https://dns.services/api/service/".toList ++ serviceId ++ "/dns/".toList ++ domainId
    ++ "/records".toList

/-- Go `fmt.Sprintf("https://dns.services/api/service/%s/dns/%s/records/%s", serviceId,
domainId, recordId)`, the URL of `RemoveRecord`. -/
def recordURL (serviceId domainId recordId : Str) : Str :=
  "https://dns.services/api/service/".toList ++ serviceId ++ "/dns/".toList ++ domainId
    ++ "/records/".toList ++ recordId

/-- Go `(*DnsSvcClient).Login`; returns the error and the client afterwards.
`m["token"].(string)` is a single-value type assertion.  The URL is a constant
that parses. -/
def Login (p : Provider) (dns : DnsSvcClient) (username password : Str) :
    Exec (Option Error × DnsSvcClient) :=
  let calls := [Request.login username password]
  match p.login username password with
  | .error err => ⟨.ret (some err, dns), calls⟩
  | .ok m =>
    match m.lookup "error".toList with
    | some errMsg => ⟨.ret (some (.loginApi errMsg), dns), calls⟩
    | none =>
      match m.lookup "token".toList with
      | some (.string tok) => ⟨.ret (none, { dns with token := tok }), calls⟩
      | _ => ⟨.panic, calls⟩

/-- Go `(*DnsSvcClient).LoadDNS`.  The URL is a constant that parses. -/
def LoadDNS (p : Provider) (dns : DnsSvcClient) : Exec (Option Services × Option Error) :=
  let calls := [Request.loadDNS dns.token]
  match p.loadDNS dns.token with
  | .error err => ⟨.ret (none, some err), calls⟩
  | .ok services => ⟨.ret (some services, none), calls⟩

/-- Go `(*DnsSvcClient).GetDetails`.  `zone.ServiceId` dereferences `zone` while
the URL is built, and `req, _ := http.NewRequest(...)` drops the error, so
`req.Header.Set` dereferences a nil request when the URL does not parse; both
panics come before any exchange. -/
def GetDetails (p : Provider) (dns : DnsSvcClient) (zone : Option ZoneRec) :
    Exec (Option DNSHeader × Option Error) :=
  match zone with
  | none => ⟨.panic, []⟩
  | some zone =>
    let url := detailsURL zone.ServiceId zone.DomainId
    if p.urlParses url = false then ⟨.panic, []⟩
    else
      let calls := [Request.getDetails dns.token zone.ServiceId zone.DomainId]
      match p.getDetails dns.token zone.ServiceId zone.DomainId with
      | .error err => ⟨.ret (none, some err), calls⟩
      | .ok details => ⟨.ret (some details, none), calls⟩

/-- Go `(*DnsSvcClient).AddRecord`; the callers pass the address of a local
record, so `rec` is not nil, and `json.Marshal` of a record does not fail.  The
nil zone and the unparsable URL panic as in `GetDetails`. -/
def AddRecord (p : Provider) (dns : DnsSvcClient) (zone : Option ZoneRec) (rec : DNSRecord) :
    Exec (Option Error) :=
  match zone with
  | none => ⟨.panic, []⟩
  | some zone =>
    let url := recordsURL zone.ServiceId zone.DomainId
    if p.urlParses url = false then ⟨.panic, []⟩
    else
      let calls := [Request.addRecord dns.token zone.ServiceId zone.DomainId rec]
      match p.addRecord dns.token zone.ServiceId zone.DomainId rec with
      | .error err => ⟨.ret (some err), calls⟩
      | .ok m =>
        if m.lookup "success".toList ≠ some (.bool true) then
          ⟨.ret (some .postUnsuccessful), calls⟩
        else ⟨.ret none, calls⟩

/-- Go `(*DnsSvcClient).RemoveRecord`; the caller passes a record it found, so
`rec` is not nil.  The nil zone and the unparsable URL panic as in
`GetDetails`. -/
def RemoveRecord (p : Provider) (dns : DnsSvcClient) (zone : Option ZoneRec) (rec : DNSRecord) :
    Exec (Option Error) :=
  match zone with
  | none => ⟨.panic, []⟩
  | some zone =>
    let url := recordURL zone.ServiceId zone.DomainId rec.Id
    if p.urlParses url = false then ⟨.panic, []⟩
    else
      let calls := [Request.removeRecord dns.token zone.ServiceId zone.DomainId rec.Id]
      match p.removeRecord dns.token zone.ServiceId zone.DomainId rec.Id with
      | .error err => ⟨.ret (some err), calls⟩
      | .ok m =>
        if m.lookup "success".toList ≠ some (.bool true) then
          ⟨.ret (some .deleteUnsuccessful), calls⟩
        else ⟨.ret none, calls⟩

/-! ## The orchestrator of `main.go` -/

/-- The fields of cert-manager's `v1alpha1.ChallengeRequest` that the code reads. -/
structure ChallengeRequest where
  ResourceNamespace : Str
  ResolvedZone : Str
  ResolvedFQDN : Str
  Key : Str
  deriving DecidableEq

structure credential where
  Username : Str
  Password : Str
  deriving DecidableEq

/-- Go `getDomainAndEntry`; returns `(entry, domain)`. -/
def getDomainAndEntry (ch : ChallengeRequest) : Str × Str :=
  let entry := TrimSuffix ch.ResolvedFQDN ch.ResolvedZone
  let entry := TrimSuffix entry ['.']
  let domain := TrimSuffix ch.ResolvedZone ['.']
  (entry, domain)

/-- Go `findZone`. -/
def findZone (p : Provider) (dnsClient : DnsSvcClient) (name : Str) :
    Exec (Option ZoneRec × Option Error) :=
  (LoadDNS p dnsClient).andThen fun (services, err) =>
  match err with
  | some err => Exec.done (none, some err)
  | none => Exec.done (GetZoneByName services name, none)

/-- Go `addDNSRecord`. -/
def addDNSRecord (p : Provider) (cred : credential) (ch : ChallengeRequest) :
    Exec (Option Error) :=
  let dnsClient : DnsSvcClient := { token := [] }
  (Login p dnsClient cred.Username cred.Password).andThen fun (loginErr, dnsClient) =>
  match loginErr with
  | some loginErr => Exec.done (some loginErr)
  | none =>
    let (entry, domain) := getDomainAndEntry ch
    (findZone p dnsClient domain).andThen fun (zone, err) =>
    match err with
    | some err => Exec.done (some err)
    | none =>
      let txt : DNSRecord :=
        { Id := [], DomainId := [], Name := entry, Ttl := "3600".toList, Type_ := "TXT".toList,
          Prio := [], Content := .string ch.Key }
      (AddRecord p dnsClient zone txt).andThen fun addErr =>
      match addErr with
      | some addErr => Exec.done (some addErr)
      | none => Exec.done none

/-- Go `removeDNSRecord`.  The second lookup runs only when the first found
nothing; whether a lookup finds nothing does not depend on the order in which
the records are visited. -/
def removeDNSRecord (p : Provider) (cred : credential) (ch : ChallengeRequest) :
    Exec (Option Error) :=
  let dnsClient : DnsSvcClient := { token := [] }
  (Login p dnsClient cred.Username cred.Password).andThen fun (loginErr, dnsClient) =>
  match loginErr with
  | some loginErr => Exec.done (some loginErr)
  | none =>
    let (entry, domain) := getDomainAndEntry ch
    (findZone p dnsClient domain).andThen fun (zone, err) =>
    match err with
    | some err => Exec.done (some err)
    | none =>
      (GetDetails p dnsClient zone).andThen fun (details, err) =>
      match err with
      | some err => Exec.done (some err)
      | none =>
        let t := "TXT".toList
        let found :=
          match FindRecordByName details t ch.ResolvedFQDN with
          | some r => some r
          | none => FindRecordByName details t entry
        match found with
        | none => Exec.done none
        | some r =>
          (RemoveRecord p dnsClient zone r).andThen fun rmErr =>
          match rmErr with
          | some rmErr => Exec.done (some rmErr)
          | none => Exec.done none

/-- Whether a request is a remove-record request. -/
def Request.isRemove : Request → Bool
  | .removeRecord _ _ _ _ => true
  | _ => false

/-! ## Reference definitions, in the words of the specification -/

/-- A name with one trailing `.` removed, if it has one. -/
def stripped (name : Str) : Str :=
  if name.getLast? = some '.' then name.dropLast else name

/-- Zone resolution as a single pass: the first zone, in list order, whose name
is a substring of the requested name with one trailing `.` stripped; not found
for a nil receiver. -/
def GetZoneByName_ref (svc : Option Services) (r : Str) : Option ZoneRec :=
  match svc with
  | none => none
  | some svc => svc.Zones.find? fun zone => decide (List.IsInfix zone.Name (stripped r))

/-! ## Concrete inputs -/

/-- The zone `example.com`. -/
def zoneExample : ZoneRec :=
  { DomainId := "d1".toList, Name := "example.com".toList, ServiceId := "s1".toList }

/-- The zone `sub.example.com`. -/
def zoneSub : ZoneRec :=
  { DomainId := "d2".toList, Name := "sub.example.com".toList, ServiceId := "s1".toList }

/-- A zone stored with a trailing separator, `example.com.`. -/
def zoneDotted : ZoneRec :=
  { DomainId := "d1".toList, Name := "example.com.".toList, ServiceId := "s1".toList }

/-- A record as the provider lists it. -/
def mkRecord (id typ name content : String) : DNSRecord :=
  { Id := id.toList, DomainId := "d1".toList, Name := name.toList, Type_ := typ.toList,
    Ttl := "3600".toList, Prio := "0".toList, Content := .string content.toList }

/-- A challenge for `foo.example.com` in the zone `example.com.` with the given key. -/
def mkChallenge (key : String) : ChallengeRequest :=
  { ResourceNamespace := "default".toList, ResolvedZone := "example.com.".toList,
    ResolvedFQDN := "_acme-challenge.foo.example.com.".toList, Key := key.toList }

/-- Credentials. -/
def creds : credential := { Username := "user".toList, Password := "secret".toList }

/-- The URL parser on the URLs of the concrete inputs: it accepts the URLs
under `https://dns.services/api/` whose remainder consists of ASCII letters,
digits and `/`, `.`, `-`, `_`, each of which Go's parser accepts, and rejects
the others, among them those with a malformed `%` escape. -/
def plainURL (url : Str) : Bool :=
  HasPrefix url "https://dns.services/api/".toList &&
    (url.drop "https://dns.services/api/".toList.length).all fun c =>
      c.isAlphanum || c == '/' || c == '.' || c == '-' || c == '_'

/-- A provider that answers the login with `loginResponse`, lists `zones`,
returns `records` as the details of every zone and reports success for every
add and remove. -/
def mkProvider (loginResponse : JsonMap) (zones : List ZoneRec)
    (records : List (Str × DNSRecord)) : Provider :=
  { urlParses := plainURL
    login := fun _ _ => .ok loginResponse
    loadDNS := fun _ => .ok { ServiceIds := ["s1".toList], Zones := zones }
    getDetails := fun _ serviceId _ =>
      .ok { ServiceId := serviceId, Name := "example.com".toList, Records := records }
    addRecord := fun _ _ _ _ => .ok [("success".toList, .bool true)]
    removeRecord := fun _ _ _ _ => .ok [("success".toList, .bool true)] }

/-- The login response `{"token": "tok"}`. -/
def tokenResponse : JsonMap := [("token".toList, .string "tok".toList)]

/-- Two TXT records published under the challenge name by other validations. -/
def recordA : DNSRecord := mkRecord "1" "TXT" "_acme-challenge.foo.example.com" "k1"

/-- See `recordA`. -/
def recordB : DNSRecord := mkRecord "3" "TXT" "_acme-challenge.foo.example.com" "k3"

/-- A zone whose service id holds a malformed `%` escape, `s%zz`. -/
def zoneBadId : ZoneRec :=
  { DomainId := "d1".toList, Name := "example.com".toList, ServiceId := "s%zz".toList }

/-! ## Facts about the string primitives -/

theorem HasSuffix_dot_iff (s : Str) : HasSuffix s ['.'] = true ↔ s.getLast? = some '.' := by
  rcases List.eq_nil_or_concat s with h | ⟨t, c, h⟩
  · subst h; simp [HasSuffix]
  · subst h
    simp [HasSuffix]

theorem stripDot_eq_stripped (s : Str) : stripDot s = stripped s := by
  unfold stripDot stripped
  by_cases h : s.getLast? = some '.'
  · rw [if_pos ((HasSuffix_dot_iff s).2 h), if_pos h, List.dropLast_eq_take]
  · have h2 : ¬ HasSuffix s ['.'] = true := fun h3 => h ((HasSuffix_dot_iff s).1 h3)
    rw [if_neg h2, if_neg h]

theorem stripDot_append_dot (t : Str) : stripDot (t ++ ['.']) = t := by
  rw [stripDot_eq_stripped]; simp [stripped]

theorem stripDot_of_not_suffix (s : Str) (h : HasSuffix s ['.'] = false) : stripDot s = s := by
  simp [stripDot, h]


theorem HasPrefix_iff (s sub : Str) : HasPrefix s sub = true ↔ List.IsPrefix sub s := by
  simp only [HasPrefix, Bool.and_eq_true, decide_eq_true_eq, beq_iff_eq]
  constructor
  · rintro ⟨_, h⟩
    exact List.prefix_iff_eq_take.2 h.symm
  · intro h
    exact ⟨h.length_le, (List.prefix_iff_eq_take.1 h).symm⟩

theorem Contains_iff (s sub : Str) : Contains s sub = true ↔ List.IsInfix sub s := by
  induction s with
  | nil =>
    rw [Contains, HasPrefix_iff, List.infix_nil, List.prefix_nil]
  | cons c cs ih =>
    rw [Contains, Bool.or_eq_true, HasPrefix_iff, ih, List.infix_cons_iff]

theorem TrimSuffix_dot (s : Str) : TrimSuffix s ['.'] = stripped s := by
  rw [← stripDot_eq_stripped]; rfl

theorem TrimSuffix_append (a z : Str) : TrimSuffix (a ++ z) z = a := by
  have hlen : (a ++ z).length - z.length = a.length := by
    rw [List.length_append, Nat.add_sub_cancel]
  have hs : HasSuffix (a ++ z) z = true := by
    simp [HasSuffix, hlen]
  rw [TrimSuffix, if_pos hs, hlen, List.take_left]

/-! ## Facts about the two loops -/

theorem GetZoneByName_some (svc : Services) (r : Str) :
    GetZoneByName (some svc) r = GetZoneByName.loop (stripped r) svc.Zones := by
  rw [← stripDot_eq_stripped]; rfl

theorem zone_test_iff (name : Str) (zone : ZoneRec) :
    (zone.Name = name ∨ Contains name zone.Name = true) ↔ List.IsInfix zone.Name name := by
  rw [Contains_iff]
  constructor
  · rintro (h | h)
    · exact h ▸ List.infix_refl _
    · exact h
  · exact Or.inr

theorem GetZoneByName_loop_skip (name : Str) (pre rest : List ZoneRec)
    (h : ∀ y ∈ pre, ¬ List.IsInfix y.Name name) :
    GetZoneByName.loop name (pre ++ rest) = GetZoneByName.loop name rest := by
  induction pre with
  | nil => rfl
  | cons y ys ih =>
    have hy : ¬ (y.Name = name ∨ Contains name y.Name = true) :=
      fun hc => h y (List.mem_cons_self _ _) ((zone_test_iff name y).1 hc)
    rw [List.cons_append, GetZoneByName.loop, if_neg hy]
    exact ih fun z hz => h z (List.mem_cons_of_mem _ hz)

theorem GetZoneByName_loop_hit (name : Str) (zone : ZoneRec) (rest : List ZoneRec)
    (h : List.IsInfix zone.Name name) :
    GetZoneByName.loop name (zone :: rest) = some zone := by
  rw [GetZoneByName.loop, if_pos ((zone_test_iff name zone).2 h)]

theorem GetZoneByName_loop_find (name : Str) (zones : List ZoneRec) :
    GetZoneByName.loop name zones
      = zones.find? fun zone => decide (List.IsInfix zone.Name name) := by
  induction zones with
  | nil => rfl
  | cons z rest ih =>
    by_cases h : List.IsInfix z.Name name
    · rw [GetZoneByName_loop_hit name z rest h, List.find?_cons_of_pos]
      exact decide_eq_true h
    · have hz : ¬ (z.Name = name ∨ Contains name z.Name = true) :=
        fun hc => h ((zone_test_iff name z).1 hc)
      rw [GetZoneByName.loop, if_neg hz, ih, List.find?_cons_of_neg]
      simpa using h

theorem FindRecordByName_some (details : DNSHeader) (typ name : Str) :
    FindRecordByName (some details) typ name
      = FindRecordByName.loop typ (stripped name) details.Records := by
  rw [← stripDot_eq_stripped]; rfl

theorem FindRecordByName_loop_step (typ name : Str) (k : Str) (rec : DNSRecord)
    (rest : List (Str × DNSRecord)) :
    FindRecordByName.loop typ name ((k, rec) :: rest)
      = if rec.Type_ = typ ∧ stripped rec.Name = name then some rec
        else FindRecordByName.loop typ name rest := by
  rw [← stripDot_eq_stripped]; rfl

theorem FindRecordByName_loop_sound (typ name : Str) (recs : List (Str × DNSRecord))
    (r : DNSRecord) (h : FindRecordByName.loop typ name recs = some r) :
    (∃ k, (k, r) ∈ recs) ∧ r.Type_ = typ ∧ stripped r.Name = name := by
  induction recs with
  | nil => simp [FindRecordByName.loop] at h
  | cons e rest ih =>
    obtain ⟨k, rec⟩ := e
    rw [FindRecordByName_loop_step] at h
    by_cases hc : rec.Type_ = typ ∧ stripped rec.Name = name
    · rw [if_pos hc] at h
      cases h
      exact ⟨⟨k, List.mem_cons_self _ _⟩, hc⟩
    · rw [if_neg hc] at h
      obtain ⟨⟨k2, hk⟩, h2⟩ := ih h
      exact ⟨⟨k2, List.mem_cons_of_mem _ hk⟩, h2⟩

theorem FindRecordByName_loop_complete (typ name : Str) (recs : List (Str × DNSRecord))
    (e : Str × DNSRecord) (he : e ∈ recs) (ht : e.2.Type_ = typ)
    (hn : stripped e.2.Name = name) :
    ∃ r, FindRecordByName.loop typ name recs = some r := by
  induction recs with
  | nil => cases he
  | cons e2 rest ih =>
    obtain ⟨k, rec⟩ := e2
    rw [FindRecordByName_loop_step]
    by_cases hc : rec.Type_ = typ ∧ stripped rec.Name = name
    · exact ⟨rec, if_pos hc⟩
    · rw [if_neg hc]
      rcases List.mem_cons.1 he with h | h
      · subst h; exact absurd ⟨ht, hn⟩ hc
      · exact ih h

/-! ## Zone resolution -/

/-- C1, as stated, fails: with `example.com` listed before `sub.example.com`,
the request `sub.example.com` equals the second zone's name, yet no zone of
that name is returned (the first zone is, its name being a substring). -/
theorem GetZoneByName_exact_match_can_lose :
    ¬ ∀ (svc : Services) (r : Str), (∃ z ∈ svc.Zones, z.Name = stripped r) →
        ∃ z, GetZoneByName (some svc) r = some z ∧ z.Name = stripped r := by
  intro h
  obtain ⟨z, hz, hname⟩ :=
    h { ServiceIds := [], Zones := [zoneExample, zoneSub] } "sub.example.com".toList
      ⟨zoneSub, by decide, by decide⟩
  have hres : GetZoneByName (some { ServiceIds := [], Zones := [zoneExample, zoneSub] })
      "sub.example.com".toList = some zoneExample := by decide
  rw [hres] at hz
  cases hz
  revert hname
  decide

/-- C1, amended: when a zone's name equals the requested name with one trailing
`.` stripped and no zone listed before it has a name that is a substring of
that stripped name, `GetZoneByName` returns that zone. -/
theorem GetZoneByName_exact_match_first (ids : List Str) (pre post : List ZoneRec)
    (z : ZoneRec) (r : Str) (hz : z.Name = stripped r)
    (hpre : ∀ y ∈ pre, ¬ List.IsInfix y.Name (stripped r)) :
    GetZoneByName (some { ServiceIds := ids, Zones := pre ++ z :: post }) r = some z := by
  rw [GetZoneByName_some]
  show GetZoneByName.loop (stripped r) (pre ++ z :: post) = some z
  rw [GetZoneByName_loop_skip _ _ _ hpre]
  exact GetZoneByName_loop_hit _ _ _ (hz ▸ List.infix_refl _)

/-- C1, amended, at a concrete zone list: `sub.example.com` listed after
`example.org` and before `example.com`. -/
theorem GetZoneByName_exact_match_first_witness :
    GetZoneByName
      (some { ServiceIds := [],
              Zones := [{ zoneExample with Name := "example.org".toList }] ++
                zoneSub :: [zoneExample] })
      "sub.example.com.".toList = some zoneSub :=
  GetZoneByName_exact_match_first [] [{ zoneExample with Name := "example.org".toList }]
    [zoneExample] zoneSub "sub.example.com.".toList (by decide) (by decide)

/-- C3, as stated, fails: for the zone stored as `example.com.`, the name
`example.com..` resolves and the name `example.com.` does not. -/
theorem GetZoneByName_trailing_dot_twice :
    ¬ ∀ (svc : Option Services) (m : Str),
        GetZoneByName svc (m ++ ['.']) = GetZoneByName svc m := by
  intro h
  have h1 := h (some { ServiceIds := [], Zones := [zoneDotted] }) "example.com.".toList
  revert h1
  decide

/-- C3, amended: for a name that ends in exactly one `.` (what precedes the
final `.` does not end in `.`), `GetZoneByName` gives the same result with and
without that final `.`. -/
theorem GetZoneByName_trailing_dot (svc : Option Services) (m : Str)
    (hm : HasSuffix m ['.'] = false) :
    GetZoneByName svc (m ++ ['.']) = GetZoneByName svc m := by
  cases svc with
  | none => rfl
  | some svc =>
    show GetZoneByName.loop (stripDot (m ++ ['.'])) svc.Zones
      = GetZoneByName.loop (stripDot m) svc.Zones
    rw [stripDot_append_dot, stripDot_of_not_suffix m hm]

/-- C3, amended, at the names `example.com.` and `example.com`. -/
theorem GetZoneByName_trailing_dot_witness :
    HasSuffix "example.com".toList ['.'] = false ∧
    GetZoneByName (some { ServiceIds := [], Zones := [zoneExample] })
        ("example.com".toList ++ ['.'])
      = GetZoneByName (some { ServiceIds := [], Zones := [zoneExample] })
          "example.com".toList :=
  ⟨by decide, GetZoneByName_trailing_dot _ _ (by decide)⟩

/-- C8 at its failing input: the zone stored as `example.com.` has the same
normalized name as the request `example.com`, and `GetZoneByName` finds no
zone. -/
theorem GetZoneByName_zone_name_not_normalized :
    stripped zoneDotted.Name = stripped "example.com".toList ∧
    GetZoneByName (some { ServiceIds := [], Zones := [zoneDotted] }) "example.com".toList
      = none := by
  decide

/-- C10: `GetZoneByName` is the single-pass reference: it returns the first
zone in list order whose name is a substring of the requested name with one
trailing `.` stripped; it finds nothing exactly when the receiver is nil or no
zone name is such a substring; and a zone with the empty name is returned
whenever no earlier zone matches. -/
theorem GetZoneByName_refines_first_substring (svc : Option Services) (r : Str) :
    GetZoneByName svc r = GetZoneByName_ref svc r ∧
    (GetZoneByName svc r = none ↔
      svc = none ∨ ∃ s, svc = some s ∧ ∀ z ∈ s.Zones, ¬ List.IsInfix z.Name (stripped r)) ∧
    (∀ (ids : List Str) (pre post : List ZoneRec) (z : ZoneRec), z.Name = [] →
      (∀ y ∈ pre, ¬ List.IsInfix y.Name (stripped r)) →
      GetZoneByName (some { ServiceIds := ids, Zones := pre ++ z :: post }) r = some z) := by
  refine ⟨?_, ?_, ?_⟩
  · cases svc with
    | none => rfl
    | some s => rw [GetZoneByName_some, GetZoneByName_loop_find]; rfl
  · cases svc with
    | none => simp [GetZoneByName]
    | some s =>
      rw [GetZoneByName_some, GetZoneByName_loop_find, List.find?_eq_none]
      simp
  · intro ids pre post z hz hpre
    rw [GetZoneByName_some]
    show GetZoneByName.loop (stripped r) (pre ++ z :: post) = some z
    rw [GetZoneByName_loop_skip _ _ _ hpre]
    exact GetZoneByName_loop_hit _ _ _ (by rw [hz]; exact List.nil_infix)

/-! ## Record matching -/

/-- C2: `FindRecordByName` returns a record exactly when the set holds a record
of type `typ` whose name, with one trailing `.` stripped, equals `name` with
one trailing `.` stripped; a returned record is in the set and satisfies both
conditions; and a nil receiver yields nothing. -/
theorem FindRecordByName_exact (details : DNSHeader) (typ name : Str) :
    ((∃ r, FindRecordByName (some details) typ name = some r) ↔
      ∃ e ∈ details.Records, e.2.Type_ = typ ∧ stripped e.2.Name = stripped name) ∧
    (∀ r, FindRecordByName (some details) typ name = some r →
      (∃ k, (k, r) ∈ details.Records) ∧ r.Type_ = typ ∧ stripped r.Name = stripped name) ∧
    FindRecordByName none typ name = none := by
  rw [FindRecordByName_some]
  refine ⟨⟨?_, ?_⟩, ?_, rfl⟩
  · rintro ⟨r, hr⟩
    obtain ⟨⟨k, hk⟩, h2⟩ := FindRecordByName_loop_sound _ _ _ _ hr
    exact ⟨(k, r), hk, h2⟩
  · rintro ⟨e, he, ht, hn⟩
    exact FindRecordByName_loop_complete _ _ _ e he ht hn
  · intro r hr
    exact FindRecordByName_loop_sound _ _ _ _ hr

/-! ## Entry and domain derivation -/

/-- C9: for an entry `e` not ending in `.` and a zone `z`, `getDomainAndEntry`
on the FQDN `e ++ "." ++ z` with zone `z` returns the entry `e` and the domain
`z` with one trailing `.` removed. -/
theorem getDomainAndEntry_inverts (ns key e z : Str) (_he : HasSuffix e ['.'] = false) :
    getDomainAndEntry
        { ResourceNamespace := ns, ResolvedZone := z, ResolvedFQDN := e ++ ['.'] ++ z,
          Key := key }
      = (e, if z.getLast? = some '.' then z.dropLast else z) := by
  show (TrimSuffix (TrimSuffix (e ++ ['.'] ++ z) z) ['.'], TrimSuffix z ['.']) = _
  rw [TrimSuffix_append, TrimSuffix_dot, TrimSuffix_dot]
  simp [stripped]

/-- C9 at the FQDN `_acme-challenge.foo.example.com.` with the zone
`example.com.`. -/
theorem getDomainAndEntry_inverts_witness :
    HasSuffix "_acme-challenge.foo".toList ['.'] = false ∧
    getDomainAndEntry
        { ResourceNamespace := [], ResolvedZone := "example.com.".toList,
          ResolvedFQDN := "_acme-challenge.foo".toList ++ ['.'] ++ "example.com.".toList,
          Key := [] }
      = ("_acme-challenge.foo".toList, "example.com".toList) :=
  ⟨by decide, getDomainAndEntry_inverts [] [] _ _ (by decide)⟩

/-! ## The orchestrator -/

theorem Login_calls (p : Provider) (dns : DnsSvcClient) (username password : Str) :
    (Login p dns username password).calls = [Request.login username password] := by
  unfold Login
  repeat' split
  all_goals rfl

theorem findZone_calls (p : Provider) (dns : DnsSvcClient) (name : Str) :
    (findZone p dns name).calls = [Request.loadDNS dns.token] := by
  unfold findZone LoadDNS Exec.andThen
  cases p.loadDNS dns.token <;> rfl

theorem GetDetails_calls (p : Provider) (dns : DnsSvcClient) (zone : ZoneRec)
    (r : Option DNSHeader × Option Error)
    (h : (GetDetails p dns (some zone)).outcome = .ret r) :
    (GetDetails p dns (some zone)).calls
      = [Request.getDetails dns.token zone.ServiceId zone.DomainId] := by
  simp only [GetDetails] at h ⊢
  by_cases hu : p.urlParses (detailsURL zone.ServiceId zone.DomainId) = false
  · rw [if_pos hu] at h
    cases h
  · rw [if_neg hu]
    split <;> rfl

/-- A zone id that makes the URL unparsable: `GetDetails`, `AddRecord` and
`RemoveRecord` panic before any exchange. -/
theorem unparsable_URL_panics :
    GetDetails (mkProvider tokenResponse [zoneBadId] []) { token := "tok".toList }
        (some zoneBadId) = { outcome := .panic, calls := [] } ∧
    AddRecord (mkProvider tokenResponse [zoneBadId] []) { token := "tok".toList }
        (some zoneBadId) recordA = { outcome := .panic, calls := [] } ∧
    RemoveRecord (mkProvider tokenResponse [zoneBadId] []) { token := "tok".toList }
        (some zoneBadId) recordA = { outcome := .panic, calls := [] } ∧
    removeDNSRecord (mkProvider tokenResponse [zoneBadId] []) creds (mkChallenge "k2")
      = { outcome := .panic,
          calls := [.login creds.Username creds.Password, .loadDNS "tok".toList] } := by
  decide

/-- The record that `removeDNSRecord` selects does not depend on the key of the
challenge. -/
theorem removeDNSRecord_ignores_Key (p : Provider) (cred : credential)
    (ch : ChallengeRequest) (key : Str) :
    removeDNSRecord p cred { ch with Key := key } = removeDNSRecord p cred ch := rfl

/-- C4 at its failing input: two TXT records `recordA` (content `k1`) and
`recordB` (content `k3`) share the challenge name and the challenge key is
`k2`.  In either iteration order `removeDNSRecord` issues a remove request for
the record visited first, whose content differs from the key. -/
theorem removeDNSRecord_removes_other_key :
    removeDNSRecord
        (mkProvider tokenResponse [zoneExample]
          [("1".toList, recordA), ("3".toList, recordB)]) creds (mkChallenge "k2")
      = { outcome := .ret none,
          calls := [.login creds.Username creds.Password, .loadDNS "tok".toList,
            .getDetails "tok".toList "s1".toList "d1".toList,
            .removeRecord "tok".toList "s1".toList "d1".toList recordA.Id] } ∧
    removeDNSRecord
        (mkProvider tokenResponse [zoneExample]
          [("3".toList, recordB), ("1".toList, recordA)]) creds (mkChallenge "k2")
      = { outcome := .ret none,
          calls := [.login creds.Username creds.Password, .loadDNS "tok".toList,
            .getDetails "tok".toList "s1".toList "d1".toList,
            .removeRecord "tok".toList "s1".toList "d1".toList recordB.Id] } ∧
    recordA.Content ≠ .string (mkChallenge "k2").Key ∧
    recordB.Content ≠ .string (mkChallenge "k2").Key := by
  decide

/-- C5 at its failing input: the provider lists only `example.org`, so the
domain `example.com` resolves to no zone.  Both `addDNSRecord` and
`removeDNSRecord` then panic on the nil zone, after the login and zone-list
requests, instead of returning an error. -/
theorem missing_zone_panics :
    GetZoneByName
        (some { ServiceIds := ["s1".toList],
                Zones := [{ zoneExample with Name := "example.org".toList }] })
        (getDomainAndEntry (mkChallenge "k2")).2 = none ∧
    addDNSRecord
        (mkProvider tokenResponse [{ zoneExample with Name := "example.org".toList }] [])
        creds (mkChallenge "k2")
      = { outcome := .panic,
          calls := [.login creds.Username creds.Password, .loadDNS "tok".toList] } ∧
    removeDNSRecord
        (mkProvider tokenResponse [{ zoneExample with Name := "example.org".toList }] [])
        creds (mkChallenge "k2")
      = { outcome := .panic,
          calls := [.login creds.Username creds.Password, .loadDNS "tok".toList] } := by
  decide

/-- Whenever the login succeeds, the zone list is fetched and `GetZoneByName`
finds no zone, `addDNSRecord` and `removeDNSRecord` panic. -/
theorem missing_zone_panics_always (p : Provider) (cred : credential) (ch : ChallengeRequest)
    (dns : DnsSvcClient)
    (hlogin : (Login p { token := [] } cred.Username cred.Password).outcome
      = .ret (none, dns))
    (hzone : (findZone p dns (getDomainAndEntry ch).2).outcome = .ret (none, none)) :
    (addDNSRecord p cred ch).outcome = .panic ∧
    (removeDNSRecord p cred ch).outcome = .panic := by
  constructor
  · simp [addDNSRecord, Exec.andThen, hlogin, hzone, AddRecord]
  · simp [removeDNSRecord, Exec.andThen, hlogin, hzone, GetDetails]

/-- C6 at its failing inputs: for the login responses `{}` and `{"token": 5}`
`Login` panics on the type assertion instead of returning an error; for
`{"error": "invalid credentials"}` it returns the error, and the orchestrator
returns it having issued the login request only. -/
theorem Login_without_token_panics :
    Login (mkProvider [] [zoneExample] []) { token := "old".toList }
        creds.Username creds.Password
      = { outcome := .panic, calls := [.login creds.Username creds.Password] } ∧
    Login (mkProvider [("token".toList, .number "5".toList)] [zoneExample] [])
        { token := "old".toList } creds.Username creds.Password
      = { outcome := .panic, calls := [.login creds.Username creds.Password] } ∧
    Login
        (mkProvider [("error".toList, .string "invalid credentials".toList)] [zoneExample] [])
        { token := "old".toList } creds.Username creds.Password
      = { outcome := .ret (some (.loginApi (.string "invalid credentials".toList)),
            { token := "old".toList }),
          calls := [.login creds.Username creds.Password] } ∧
    removeDNSRecord
        (mkProvider [("error".toList, .string "invalid credentials".toList)] [zoneExample] [])
        creds (mkChallenge "k2")
      = { outcome := .ret (some (.loginApi (.string "invalid credentials".toList))),
          calls := [.login creds.Username creds.Password] } := by
  decide

/-- C7: after a successful login, with the zone resolved and its details
fetched (`GetDetails` returned them, so its URL parsed), if `FindRecordByName`
finds no TXT record under the resolved FQDN nor under the entry,
`removeDNSRecord` returns no error and issues exactly the login, zone-list and
get-details requests, hence no remove request. -/
theorem removeDNSRecord_absent_record (p : Provider) (cred : credential)
    (ch : ChallengeRequest) (dns : DnsSvcClient) (zone : ZoneRec) (details : DNSHeader)
    (hlogin : (Login p { token := [] } cred.Username cred.Password).outcome
      = .ret (none, dns))
    (hzone : (findZone p dns (getDomainAndEntry ch).2).outcome = .ret (some zone, none))
    (hdetails : (GetDetails p dns (some zone)).outcome = .ret (some details, none))
    (hfqdn : FindRecordByName (some details) "TXT".toList ch.ResolvedFQDN = none)
    (hentry : FindRecordByName (some details) "TXT".toList (getDomainAndEntry ch).1 = none) :
    (removeDNSRecord p cred ch).outcome = .ret none ∧
    (removeDNSRecord p cred ch).calls
      = [.login cred.Username cred.Password, .loadDNS dns.token,
         .getDetails dns.token zone.ServiceId zone.DomainId] ∧
    ∀ c ∈ (removeDNSRecord p cred ch).calls, c.isRemove = false := by
  have hcalls : (removeDNSRecord p cred ch).calls
      = [.login cred.Username cred.Password, .loadDNS dns.token,
         .getDetails dns.token zone.ServiceId zone.DomainId] := by
    simp at hfqdn hentry
    simp [removeDNSRecord, Exec.andThen, hlogin, hzone, hdetails, hfqdn, hentry, Exec.done,
      Login_calls, findZone_calls, GetDetails_calls p dns zone _ hdetails]
  refine ⟨?_, hcalls, ?_⟩
  · simp at hfqdn hentry
    simp [removeDNSRecord, Exec.andThen, hlogin, hzone, hdetails, hfqdn, hentry, Exec.done]
  · rw [hcalls]
    intro c hc
    simp only [List.mem_cons, List.mem_singleton, List.not_mem_nil, or_false] at hc
    rcases hc with rfl | rfl | rfl <;> rfl

/-- C7 at the zone `example.com` with no records. -/
theorem removeDNSRecord_absent_record_witness :
    (removeDNSRecord (mkProvider tokenResponse [zoneExample] []) creds
        (mkChallenge "k2")).outcome = .ret none ∧
    (removeDNSRecord (mkProvider tokenResponse [zoneExample] []) creds
        (mkChallenge "k2")).calls
      = [.login creds.Username creds.Password, .loadDNS "tok".toList,
         .getDetails "tok".toList "s1".toList "d1".toList] ∧
    ∀ c ∈ (removeDNSRecord (mkProvider tokenResponse [zoneExample] []) creds
        (mkChallenge "k2")).calls, c.isRemove = false :=
  removeDNSRecord_absent_record (mkProvider tokenResponse [zoneExample] []) creds
    (mkChallenge "k2") { token := "tok".toList } zoneExample
    { ServiceId := "s1".toList, Name := "example.com".toList, Records := [] }
    (by decide) (by decide) (by decide) (by decide) (by decide)

end DnsSvc
